import Mathlib

/-!
Verification of the fixed-grid Crank–Nicolson option-pricing PDE solver.

The embedding models the Python sources over exact rationals:
numpy float arrays become `List ℚ`, in-place array mutation becomes
explicit state passing on a state record, and `math.exp` becomes an
abstract parameter `ε : ℚ → ℚ` (only the shape of the boundary formulas
matters for the properties below, never a concrete exponential value).
Division is total on `ℚ` (q / 0 = 0), matching the fact that numpy float
division never raises.
-/

namespace OptionPDE

/-- Default number of stock price steps (config.DEFAULT_PRICE_STEPS). -/
def DEFAULT_PRICE_STEPS : ℤ := 200

/-- Default number of time steps (config.DEFAULT_TIME_STEPS). -/
def DEFAULT_TIME_STEPS : ℤ := 200

/-- S_max = multiplier * strike (config.S_MAX_MULTIPLIER). -/
def S_MAX_MULTIPLIER : ℚ := 3

/-- The names defined at module level in src/config.py. -/
def configDefinedNames : List String :=
  ["DEFAULT_PRICE_STEPS", "DEFAULT_TIME_STEPS", "S_MAX_MULTIPLIER",
   "ERROR_TOLERANCE", "BENCHMARK_RUNS"]

/-- List entry read as a total function (entry i, default 0 beyond the end). -/
def entry (l : List ℚ) (i : ℕ) : ℚ := l.getD i 0

/-! ### The tridiagonal solver `_thomas_solve` (src/pde_fixed_grid.py) -/

/-- The array state of `_thomas_solve`: the four caller-owned arrays
(lower, diag, upper, rhs) and the private working copies
c = upper.copy(), d = diag.copy(), b = lower.copy(), y = rhs.copy(),
plus the output array x (np.empty(n), modelled as n zeros). -/
structure TState where
  lower : List ℚ
  diag : List ℚ
  upper : List ℚ
  rhs : List ℚ
  c : List ℚ
  d : List ℚ
  b : List ℚ
  y : List ℚ
  x : List ℚ

/-- The state right after the four copies are taken. -/
def thomasInit (lower diag upper rhs : List ℚ) : TState :=
  ⟨lower, diag, upper, rhs, upper, diag, lower, rhs, List.replicate diag.length 0⟩

/-- One iteration of the forward sweep at index i:
w = b[i-1]/d[i-1]; d[i] -= w*c[i-1]; y[i] -= w*y[i-1]. -/
def fwdStep (s : TState) (i : ℕ) : TState :=
  let w := entry s.b (i-1) / entry s.d (i-1)
  { s with d := s.d.set i (entry s.d i - w * entry s.c (i-1)),
           y := s.y.set i (entry s.y i - w * entry s.y (i-1)) }

/-- The forward sweep `for i in range(1, n)` of `_thomas_solve`:
`forwardLoop s k` is the state after the iterations i = 1..k. -/
def forwardLoop (s : TState) : ℕ → TState
  | 0 => s
  | k+1 => fwdStep (forwardLoop s k) (k+1)

/-- One iteration of the back substitution at index i:
x[i] = (y[i] - c[i]*x[i+1]) / d[i]. -/
def backStep (s : TState) (i : ℕ) : TState :=
  { s with x := s.x.set i ((entry s.y i - entry s.c i * entry s.x (i+1)) / entry s.d i) }

/-- The backward sweep `for i in range(n-2, -1, -1)` of `_thomas_solve`:
`backwardLoop s n k` is the state after its first k iterations
(those at indices n-2, n-3, ..., n-1-k). -/
def backwardLoop (s : TState) (n : ℕ) : ℕ → TState
  | 0 => s
  | k+1 => backStep (backwardLoop s n k) (n - 2 - k)

/-- The state of `_thomas_solve` after the copies, the forward sweep and
the assignment x[-1] = y[-1]/d[-1], just before the backward sweep. -/
def thomasPreBack (lower diag upper rhs : List ℚ) : TState :=
  let n := diag.length
  let s1 := forwardLoop (thomasInit lower diag upper rhs) (n - 1)
  { s1 with x := s1.x.set (n-1) (entry s1.y (n-1) / entry s1.d (n-1)) }

/-- The whole body of `_thomas_solve` after the size check: the copies,
the forward sweep, the assignment x[-1] = y[-1]/d[-1], and the backward
sweep. -/
def thomasRun (lower diag upper rhs : List ℚ) : TState :=
  backwardLoop (thomasPreBack lower diag upper rhs) diag.length (diag.length - 1)

/-- `_thomas_solve`: the size check (`rhs.size != n` raises ValueError),
then the two sweeps; returns the array x. -/
def thomas_solve (lower diag upper rhs : List ℚ) : Except String (List ℚ) :=
  if rhs.length ≠ diag.length then Except.error "rhs length must match diag length"
  else Except.ok (thomasRun lower diag upper rhs).x

/-! ### The Thomas-algorithm recurrences, written as in the spec -/

/-- Eliminated diagonal after the forward sweep, as the spec recurrence:
for `i = 1..n-1`, `diag[i] -= (sub[i-1]/diag[i-1]) * super[i-1]`. -/
def elimDiag (sub dia sup : ℕ → ℚ) : ℕ → ℚ
  | 0 => dia 0
  | i+1 => dia (i+1) - sub i / elimDiag sub dia sup i * sup i

/-- Eliminated right-hand side after the forward sweep, as the spec
recurrence: for `i = 1..n-1`, `rhs[i] -= (sub[i-1]/diag[i-1]) * rhs[i-1]`. -/
def elimRhs (sub dia sup rhs : ℕ → ℚ) : ℕ → ℚ
  | 0 => rhs 0
  | i+1 => rhs (i+1) - sub i / elimDiag sub dia sup i * elimRhs sub dia sup rhs i

/-- Back-substitution values counted from the last row:
`backSub n 0 = x[n-1] = rhs[n-1]/diag[n-1]` and
`backSub n (k+1) = x[n-2-k] = (rhs[n-2-k] - super[n-2-k]*x[n-1-k]) / diag[n-2-k]`
over the eliminated diagonal and right-hand side. -/
def backSub (sub dia sup rhs : ℕ → ℚ) (n : ℕ) : ℕ → ℚ
  | 0 => elimRhs sub dia sup rhs (n-1) / elimDiag sub dia sup (n-1)
  | k+1 => (elimRhs sub dia sup rhs (n-2-k) - sup (n-2-k) * backSub sub dia sup rhs n k) /
      elimDiag sub dia sup (n-2-k)

/-- The solution entry x_i produced by the forward and backward sweeps. -/
def xSol (sub dia sup rhs : ℕ → ℚ) (n i : ℕ) : ℚ := backSub sub dia sup rhs n (n - 1 - i)

/-- Row i of the tridiagonal matrix-vector product
sub[i-1]*x[i-1] + diag[i]*x[i] + super[i]*x[i+1] (missing terms at the
two ends dropped). -/
def tridiagRow (lower dia upper x : List ℚ) (n i : ℕ) : ℚ :=
  (if 1 ≤ i then entry lower (i-1) * entry x (i-1) else 0) +
    entry dia i * entry x i +
    (if i + 1 < n then entry upper i * entry x (i+1) else 0)

/-- The full tridiagonal matrix-vector product as a list of row values. -/
def tridiagMul (lower dia upper x : List ℚ) : List ℚ :=
  (List.range dia.length).map (tridiagRow lower dia upper x dia.length)

/-! ### Input validation (src/utils.py) -/

/-- `validate_option_inputs` from src/utils.py: the three positivity
checks, raising ValueError with the corresponding message. -/
def validate_option_inputs (S0 K T sigma : ℚ) : Except String Unit :=
  if S0 ≤ 0 ∨ K ≤ 0 then Except.error "Stock price and strike must be positive"
  else if T ≤ 0 then Except.error "Time to maturity must be positive"
  else if sigma ≤ 0 then Except.error "Volatility must be positive"
  else Except.ok ()

/-- The messages of the invalid-parameter errors (the three from
validate_option_inputs plus the option-kind check in the engine). -/
def invalidParamMessages : List String :=
  ["Stock price and strike must be positive", "Time to maturity must be positive",
   "Volatility must be positive", "option_type must be call or put"]

/-- An engine outcome is an invalid-parameter error when it is an error
with one of the invalid-parameter messages. -/
def isInvalidParamError (e : Except String ℚ) : Bool :=
  match e with
  | Except.error m => invalidParamMessages.contains m
  | Except.ok _ => false

/-- An engine outcome is an invalid-grid error when it is an error with
the grid-size message. -/
def isInvalidGridError (e : Except String ℚ) : Bool :=
  match e with
  | Except.error m => m == "Need M >= 3 and N >= 1 for a meaningful grid"
  | Except.ok _ => false

/-! ### The fixed-grid engine `price_european_fixed_grid` -/

/-- Resolution of Smax: default S_MAX_MULTIPLIER * K, and
`if Smax <= S0: Smax = max(Smax, 1.5 * S0)`. -/
def resolveSmax (K S0 : ℚ) (SmaxOpt : Option ℚ) : ℚ :=
  let Smax := SmaxOpt.getD (S_MAX_MULTIPLIER * K)
  if Smax ≤ S0 then max Smax (3/2 * S0) else Smax

/-- The price grid S = np.linspace(0.0, Smax, M+1): node i is Smax*i/M. -/
def Sgrid (Smax : ℚ) (M : ℕ) : List ℚ :=
  (List.range (M+1)).map fun i : ℕ => Smax * (i : ℚ) / (M : ℚ)

/-- The interior nodes S_i = S[i] for i in np.arange(1, M). -/
def interiorS (Smax : ℚ) (M : ℕ) : List ℚ :=
  (List.range' 1 (M-1)).map fun i => entry (Sgrid Smax M) i

/-- alpha = 0.5 * sigma * sigma * S_i * S_i. -/
def alphaCoef (sigma s : ℚ) : ℚ := 1/2 * sigma * sigma * s * s

/-- beta = r * S_i. -/
def betaCoef (r s : ℚ) : ℚ := r * s

/-- A = alpha / dS^2 - beta / (2 dS). -/
def coeffA (r sigma dS s : ℚ) : ℚ := alphaCoef sigma s / (dS * dS) - betaCoef r s / (2 * dS)

/-- B = -2 alpha / dS^2 - r. -/
def coeffB (r sigma dS s : ℚ) : ℚ := -2 * alphaCoef sigma s / (dS * dS) - r

/-- C = alpha / dS^2 + beta / (2 dS). -/
def coeffC (r sigma dS s : ℚ) : ℚ := alphaCoef sigma s / (dS * dS) + betaCoef r s / (2 * dS)

/-- The vector A over the interior nodes. -/
def Alist (r sigma Smax : ℚ) (M : ℕ) : List ℚ :=
  (interiorS Smax M).map (coeffA r sigma (Smax / M))

/-- The vector B over the interior nodes. -/
def Blist (r sigma Smax : ℚ) (M : ℕ) : List ℚ :=
  (interiorS Smax M).map (coeffB r sigma (Smax / M))

/-- The vector C over the interior nodes. -/
def Clist (r sigma Smax : ℚ) (M : ℕ) : List ℚ :=
  (interiorS Smax M).map (coeffC r sigma (Smax / M))

/-- lower_L = -0.5 * dt * A[1:]. -/
def lowerL (dt r sigma Smax : ℚ) (M : ℕ) : List ℚ :=
  ((Alist r sigma Smax M).drop 1).map fun a => -(1/2) * dt * a

/-- diag_L = 1.0 - 0.5 * dt * B. -/
def diagL (dt r sigma Smax : ℚ) (M : ℕ) : List ℚ :=
  (Blist r sigma Smax M).map fun b => 1 - 1/2 * dt * b

/-- upper_L = -0.5 * dt * C[:-1]. -/
def upperL (dt r sigma Smax : ℚ) (M : ℕ) : List ℚ :=
  ((Clist r sigma Smax M).dropLast).map fun c => -(1/2) * dt * c

/-- lower_R = 0.5 * dt * A[1:]. -/
def lowerR (dt r sigma Smax : ℚ) (M : ℕ) : List ℚ :=
  ((Alist r sigma Smax M).drop 1).map fun a => 1/2 * dt * a

/-- diag_R = 1.0 + 0.5 * dt * B. -/
def diagR (dt r sigma Smax : ℚ) (M : ℕ) : List ℚ :=
  (Blist r sigma Smax M).map fun b => 1 + 1/2 * dt * b

/-- upper_R = 0.5 * dt * C[:-1]. -/
def upperR (dt r sigma Smax : ℚ) (M : ℕ) : List ℚ :=
  ((Clist r sigma Smax M).dropLast).map fun c => 1/2 * dt * c

/-- Unwrap the solver result inside the engine (in the engine the size
check always passes, so the error branch is unreachable; see
`engine_solve_never_fails`). -/
def getOk (e : Except String (List ℚ)) : List ℚ :=
  match e with
  | Except.ok v => v
  | Except.error _ => []

/-- The right-hand side of one Crank–Nicolson step, entry by entry:
rhs = diag_R * V_in; rhs[1:] += lower_R * V_in[:-1];
rhs[:-1] += upper_R * V_in[1:];
rhs[0] += 0.5*dt*A[0]*(V0_n + V0_np1);
rhs[-1] += 0.5*dt*C[-1]*(VM_n + VM_np1). -/
def cnRhs (dt : ℚ) (M : ℕ) (dgR lowR upR A C : List ℚ)
    (V0n VMn V0n1 VMn1 : ℚ) (Vin : List ℚ) : List ℚ :=
  (List.range (M-1)).map fun j =>
    entry dgR j * entry Vin j +
    (if 1 ≤ j then entry lowR (j-1) * entry Vin (j-1) else 0) +
    (if j + 1 < M - 1 then entry upR j * entry Vin (j+1) else 0) +
    (if j = 0 then 1/2 * dt * entry A 0 * (V0n + V0n1) else 0) +
    (if j = M - 2 then 1/2 * dt * entry C (M-2) * (VMn + VMn1) else 0)

/-- The exact boundary value at S = 0 and backward time tau:
0 for a call, K*exp(-r*tau) for a put. -/
def bndLow (epsExp : ℚ → ℚ) (K r : ℚ) (optCall : Bool) (tau : ℚ) : ℚ :=
  if optCall then 0 else K * epsExp (-(r * tau))

/-- The exact boundary value at S = Smax and backward time tau:
Smax - K*exp(-r*tau) for a call, 0 for a put. -/
def bndHigh (epsExp : ℚ → ℚ) (K r Smax : ℚ) (optCall : Bool) (tau : ℚ) : ℚ :=
  if optCall then Smax - K * epsExp (-(r * tau)) else 0

/-- The assembled right-hand side of time step n: boundary values at
tau_n = n*dt and tau_{n+1} = (n+1)*dt, and the interior slice
V_in = V[1:M] of the current value vector. -/
def stepRhs (epsExp : ℚ → ℚ) (K r Smax dt : ℚ) (optCall : Bool) (M : ℕ)
    (dgR lowR upR A C : List ℚ) (V : List ℚ) (n : ℕ) : List ℚ :=
  cnRhs dt M dgR lowR upR A C
    (bndLow epsExp K r optCall ((n : ℕ) * dt)) (bndHigh epsExp K r Smax optCall ((n : ℕ) * dt))
    (bndLow epsExp K r optCall ((n+1 : ℕ) * dt)) (bndHigh epsExp K r Smax optCall ((n+1 : ℕ) * dt))
    ((V.drop 1).take (M - 1))

/-- One iteration of the time-stepping loop (step n, advancing from
tau_n = n*dt to tau_{n+1} = (n+1)*dt): compute the boundary values from
the exact formulas, build the right-hand side, solve the implicit system,
and reassemble V with the tau_{n+1} boundary values at the two ends and
the solver output at the interior nodes. -/
def cnStep (epsExp : ℚ → ℚ) (K r Smax dt : ℚ) (optCall : Bool) (M : ℕ)
    (lowL dgL upL lowR dgR upR A C : List ℚ) (V : List ℚ) (n : ℕ) : List ℚ :=
  let rhs := stepRhs epsExp K r Smax dt optCall M dgR lowR upR A C V n
  let Vnew := getOk (thomas_solve lowL dgL upL rhs)
  bndLow epsExp K r optCall ((n+1 : ℕ) * dt) :: (Vnew ++ [bndHigh epsExp K r Smax optCall ((n+1 : ℕ) * dt)])

/-- The time-stepping loop `for n in range(N)`: `cnLoop ... Vinit k` is
the value vector after the first k time steps, starting from the payoff. -/
def cnLoop (epsExp : ℚ → ℚ) (K r Smax dt : ℚ) (optCall : Bool) (M : ℕ)
    (lowL dgL upL lowR dgR upR A C : List ℚ) (Vinit : List ℚ) : ℕ → List ℚ
  | 0 => Vinit
  | n+1 => cnStep epsExp K r Smax dt optCall M lowL dgL upL lowR dgR upR A C
      (cnLoop epsExp K r Smax dt optCall M lowL dgL upL lowR dgR upR A C Vinit n) n

/-- Linear interpolation scan of np.interp beyond the first node:
clamps to the last value on the right. -/
def npInterpGo (xv x0 y0 : ℚ) : List ℚ → List ℚ → ℚ
  | x1 :: xrest, y1 :: yrest =>
    if xv ≤ x1 then y0 + (y1 - y0) * (xv - x0) / (x1 - x0)
    else npInterpGo xv x1 y1 xrest yrest
  | _, _ => y0

/-- The engine's time-stepping loop with the operator and coefficient
arrays it actually passes (the implicit and explicit Crank–Nicolson
operators and the A, C coefficient vectors). -/
def engineLoop (epsExp : ℚ → ℚ) (K r sigma Smax dt : ℚ) (optCall : Bool) (M : ℕ)
    (Vinit : List ℚ) (k : ℕ) : List ℚ :=
  cnLoop epsExp K r Smax dt optCall M
    (lowerL dt r sigma Smax M) (diagL dt r sigma Smax M) (upperL dt r sigma Smax M)
    (lowerR dt r sigma Smax M) (diagR dt r sigma Smax M) (upperR dt r sigma Smax M)
    (Alist r sigma Smax M) (Clist r sigma Smax M) Vinit k

/-- The tridiagonal solve the engine performs at time step n, with the
operator arrays it actually passes, returning the new interior values. -/
def engineSolve (epsExp : ℚ → ℚ) (K r sigma Smax dt : ℚ) (optCall : Bool) (M : ℕ)
    (V : List ℚ) (n : ℕ) : List ℚ :=
  getOk (thomas_solve (lowerL dt r sigma Smax M) (diagL dt r sigma Smax M)
    (upperL dt r sigma Smax M)
    (stepRhs epsExp K r Smax dt optCall M (diagR dt r sigma Smax M) (lowerR dt r sigma Smax M)
      (upperR dt r sigma Smax M) (Alist r sigma Smax M) (Clist r sigma Smax M) V n))

/-- np.interp(x, xp, fp) for increasing xp: clamps at both ends,
linear between bracketing nodes. -/
def npInterp (xv : ℚ) (xp fp : List ℚ) : ℚ :=
  match xp, fp with
  | x0 :: xrest, y0 :: yrest =>
    if xv ≤ x0 then y0 else npInterpGo xv x0 y0 xrest yrest
  | _, _ => 0

/-- `price_european_fixed_grid` from src/pde_fixed_grid.py: validation,
grid-size check, Smax resolution, payoff initialization, coefficient and
operator assembly, the Crank–Nicolson time loop, and final interpolation
at S0. `epsExp` stands for math.exp. -/
def price_european_fixed_grid (epsExp : ℚ → ℚ) (S0 K T r sigma : ℚ)
    (option_type : String) (Mopt Nopt : Option ℤ) (SmaxOpt : Option ℚ) :
    Except String ℚ :=
  match validate_option_inputs S0 K T sigma with
  | Except.error e => Except.error e
  | Except.ok _ =>
    if ¬(option_type = "call" ∨ option_type = "put") then
      Except.error "option_type must be call or put"
    else
      let Mi := Mopt.getD DEFAULT_PRICE_STEPS
      let Ni := Nopt.getD DEFAULT_TIME_STEPS
      if Mi < 3 ∨ Ni < 1 then
        Except.error "Need M >= 3 and N >= 1 for a meaningful grid"
      else
        let M := Mi.toNat
        let N := Ni.toNat
        let Smax := resolveSmax K S0 SmaxOpt
        let dt := T / (N : ℚ)
        let S := Sgrid Smax M
        let optCall := option_type = "call"
        let Vinit := if optCall then S.map (fun s => max (s - K) 0)
          else S.map (fun s => max (K - s) 0)
        let VN := engineLoop epsExp K r sigma Smax dt optCall M Vinit N
        Except.ok (npInterp S0 S VN)

/-! ### The adaptive-time module (src/pde_adaptive_time.py) -/

/-- The possible outcomes of attempting to call the adaptive entry point. -/
inductive AdaptiveCallResult
  | importFailure (missingName : String)
  | notImplementedSignal
deriving DecidableEq

/-- src/pde_adaptive_time.py opens with `from .config import PDEConfig`;
the import succeeds only if src/config.py defines that name. -/
def pdeAdaptiveTimeImport : Except String Unit :=
  if "PDEConfig" ∈ configDefinedNames then Except.ok ()
  else Except.error "ImportError: cannot import name PDEConfig from config"

/-- The body of price_option_adaptive_time: it unconditionally raises
NotImplementedError, for every input. -/
def price_option_adaptive_time_body : Except String ℚ :=
  Except.error "NotImplementedError: Adaptive time-stepping solver not yet implemented"

/-- Calling price_option_adaptive_time requires importing its module
first; only if the import succeeds does the body run and raise its
dedicated NotImplementedError signal. -/
def call_price_option_adaptive_time : AdaptiveCallResult :=
  match pdeAdaptiveTimeImport with
  | Except.error _ => AdaptiveCallResult.importFailure "PDEConfig"
  | Except.ok _ => AdaptiveCallResult.notImplementedSignal

/-! ## Helper lemmas about list entries -/

theorem entry_eq_getElem? (l : List ℚ) (i : ℕ) : entry l i = l[i]?.getD 0 := by
  rw [entry, List.getD, List.get?_eq_getElem?]

theorem entry_eq_getElem (l : List ℚ) (i : ℕ) (h : i < l.length) : entry l i = l[i] := by
  rw [entry_eq_getElem?, List.getElem?_eq_getElem h]; rfl

theorem entry_set_self (l : List ℚ) (i : ℕ) (a : ℚ) (h : i < l.length) :
    entry (l.set i a) i = a := by
  simp [entry_eq_getElem?, List.getElem?_set, h]

theorem entry_set_ne (l : List ℚ) (i j : ℕ) (a : ℚ) (h : i ≠ j) :
    entry (l.set i a) j = entry l j := by
  simp [entry_eq_getElem?, List.getElem?_set, h]

theorem entry_map_of_lt (f : ℚ → ℚ) (l : List ℚ) (j : ℕ) (h : j < l.length) :
    entry (l.map f) j = f (entry l j) := by
  simp [entry_eq_getElem?, List.getElem?_map, List.getElem?_eq_getElem, h]

theorem entry_map_range (f : ℕ → ℚ) (k j : ℕ) (h : j < k) :
    entry ((List.range k).map f) j = f j := by
  simp [entry_eq_getElem?, List.getElem?_map, List.getElem?_range, h]

theorem entry_map_range' (f : ℕ → ℚ) (s k j : ℕ) (h : j < k) :
    entry ((List.range' s k).map f) j = f (s + j) := by
  simp [entry_eq_getElem?, List.getElem?_map, List.getElem?_range', h]

theorem entry_drop_one (l : List ℚ) (j : ℕ) : entry (l.drop 1) j = entry l (j+1) := by
  simp [entry_eq_getElem?, List.getElem?_drop]

theorem entry_dropLast (l : List ℚ) (j : ℕ) (h : j + 1 < l.length) :
    entry l.dropLast j = entry l j := by
  have hj : j < l.dropLast.length := by simp; omega
  have hj2 : j < l.length := by omega
  rw [entry_eq_getElem?, entry_eq_getElem?, List.getElem?_eq_getElem hj,
    List.getElem?_eq_getElem hj2]
  simp [List.getElem_dropLast]

theorem entry_append_left (l1 l2 : List ℚ) (j : ℕ) (h : j < l1.length) :
    entry (l1 ++ l2) j = entry l1 j := by
  simp [entry_eq_getElem?, List.getElem?_append, h]

theorem entry_append_right (l1 l2 : List ℚ) (j : ℕ) (h : l1.length ≤ j) :
    entry (l1 ++ l2) j = entry l2 (j - l1.length) := by
  simp [entry_eq_getElem?, List.getElem?_append_right, h]

theorem entry_cons_succ (a : ℚ) (l : List ℚ) (j : ℕ) : entry (a :: l) (j+1) = entry l j := rfl

theorem entry_cons_zero (a : ℚ) (l : List ℚ) : entry (a :: l) 0 = a := rfl

theorem entry_take (m j : ℕ) (l : List ℚ) (h : j < m) : entry (l.take m) j = entry l j := by
  simp [entry_eq_getElem?, List.getElem?_take, h]

theorem entry_replicate (n j : ℕ) : entry (List.replicate n (0:ℚ)) j = 0 := by
  simp [entry_eq_getElem?, List.getElem?_replicate]
  split <;> rfl

theorem list_eq_of_entry_eq (l1 l2 : List ℚ) (h : l1.length = l2.length)
    (he : ∀ i < l1.length, entry l1 i = entry l2 i) : l1 = l2 := by
  apply List.ext_getElem h
  intro i h1 h2
  have := he i h1
  rwa [entry_eq_getElem _ _ h1, entry_eq_getElem _ _ h2] at this

/-! ## State lemmas for the solver loops -/


theorem fwdStep_fields (s : TState) (i : ℕ) :
    (fwdStep s i).lower = s.lower ∧ (fwdStep s i).diag = s.diag ∧
    (fwdStep s i).upper = s.upper ∧ (fwdStep s i).rhs = s.rhs ∧
    (fwdStep s i).c = s.c ∧ (fwdStep s i).b = s.b ∧ (fwdStep s i).x = s.x :=
  ⟨rfl, rfl, rfl, rfl, rfl, rfl, rfl⟩

theorem forwardLoop_fields (s : TState) (k : ℕ) :
    (forwardLoop s k).lower = s.lower ∧ (forwardLoop s k).diag = s.diag ∧
    (forwardLoop s k).upper = s.upper ∧ (forwardLoop s k).rhs = s.rhs ∧
    (forwardLoop s k).c = s.c ∧ (forwardLoop s k).b = s.b ∧ (forwardLoop s k).x = s.x := by
  induction k with
  | zero => exact ⟨rfl, rfl, rfl, rfl, rfl, rfl, rfl⟩
  | succ k ih =>
    have h := fwdStep_fields (forwardLoop s k) (k+1)
    rw [forwardLoop]
    exact ⟨h.1.trans ih.1, h.2.1.trans ih.2.1, h.2.2.1.trans ih.2.2.1,
      h.2.2.2.1.trans ih.2.2.2.1, h.2.2.2.2.1.trans ih.2.2.2.2.1,
      h.2.2.2.2.2.1.trans ih.2.2.2.2.2.1, h.2.2.2.2.2.2.trans ih.2.2.2.2.2.2⟩

theorem forwardLoop_d_length (s : TState) (k : ℕ) :
    (forwardLoop s k).d.length = s.d.length := by
  induction k with
  | zero => rfl
  | succ k ih => rw [forwardLoop]; simpa [fwdStep] using ih

theorem forwardLoop_y_length (s : TState) (k : ℕ) :
    (forwardLoop s k).y.length = s.y.length := by
  induction k with
  | zero => rfl
  | succ k ih => rw [forwardLoop]; simpa [fwdStep] using ih

theorem backStep_fields (s : TState) (i : ℕ) :
    (backStep s i).lower = s.lower ∧ (backStep s i).diag = s.diag ∧
    (backStep s i).upper = s.upper ∧ (backStep s i).rhs = s.rhs ∧
    (backStep s i).c = s.c ∧ (backStep s i).d = s.d ∧
    (backStep s i).b = s.b ∧ (backStep s i).y = s.y :=
  ⟨rfl, rfl, rfl, rfl, rfl, rfl, rfl, rfl⟩

theorem backwardLoop_fields (s : TState) (n k : ℕ) :
    (backwardLoop s n k).lower = s.lower ∧ (backwardLoop s n k).diag = s.diag ∧
    (backwardLoop s n k).upper = s.upper ∧ (backwardLoop s n k).rhs = s.rhs ∧
    (backwardLoop s n k).c = s.c ∧ (backwardLoop s n k).d = s.d ∧
    (backwardLoop s n k).b = s.b ∧ (backwardLoop s n k).y = s.y := by
  induction k with
  | zero => exact ⟨rfl, rfl, rfl, rfl, rfl, rfl, rfl, rfl⟩
  | succ k ih =>
    have h := backStep_fields (backwardLoop s n k) (n - 2 - k)
    rw [backwardLoop]
    exact ⟨h.1.trans ih.1, h.2.1.trans ih.2.1, h.2.2.1.trans ih.2.2.1,
      h.2.2.2.1.trans ih.2.2.2.1, h.2.2.2.2.1.trans ih.2.2.2.2.1,
      h.2.2.2.2.2.1.trans ih.2.2.2.2.2.1, h.2.2.2.2.2.2.1.trans ih.2.2.2.2.2.2.1,
      h.2.2.2.2.2.2.2.trans ih.2.2.2.2.2.2.2⟩

theorem backwardLoop_x_length (s : TState) (n k : ℕ) :
    (backwardLoop s n k).x.length = s.x.length := by
  induction k with
  | zero => rfl
  | succ k ih => rw [backwardLoop]; simpa [backStep] using ih

/-! ## Agreement of the solver loops with the sweep recurrences -/

theorem forward_inv (lo dia up rh : List ℚ) (hr : rh.length = dia.length) :
    ∀ k, k ≤ dia.length - 1 →
    (∀ i, i ≤ k → entry (forwardLoop (thomasInit lo dia up rh) k).d i
        = elimDiag (entry lo) (entry dia) (entry up) i) ∧
    (∀ i, k < i → entry (forwardLoop (thomasInit lo dia up rh) k).d i = entry dia i) ∧
    (∀ i, i ≤ k → entry (forwardLoop (thomasInit lo dia up rh) k).y i
        = elimRhs (entry lo) (entry dia) (entry up) (entry rh) i) ∧
    (∀ i, k < i → entry (forwardLoop (thomasInit lo dia up rh) k).y i = entry rh i) := by
  intro k
  induction k with
  | zero =>
    intro _
    refine ⟨?_, fun i _ => rfl, ?_, fun i _ => rfl⟩
    · intro i hi
      have h0 : i = 0 := Nat.le_zero.mp hi
      subst h0; rfl
    · intro i hi
      have h0 : i = 0 := Nat.le_zero.mp hi
      subst h0; rfl
  | succ k ih =>
    intro hk
    have hk' : k ≤ dia.length - 1 := Nat.le_of_succ_le hk
    obtain ⟨ihd, ihdg, ihy, ihyg⟩ := ih hk'
    have hfld := forwardLoop_fields (thomasInit lo dia up rh) k
    have hb : (forwardLoop (thomasInit lo dia up rh) k).b = lo := hfld.2.2.2.2.2.1
    have hc : (forwardLoop (thomasInit lo dia up rh) k).c = up := hfld.2.2.2.2.1
    have hdlen : (forwardLoop (thomasInit lo dia up rh) k).d.length = dia.length := by
      rw [forwardLoop_d_length]; rfl
    have hylen : (forwardLoop (thomasInit lo dia up rh) k).y.length = dia.length := by
      rw [forwardLoop_y_length]; exact hr
    have hklt : k + 1 < dia.length := by omega
    rw [forwardLoop]
    refine ⟨?_, ?_, ?_, ?_⟩
    · intro i hi
      rcases Nat.lt_or_ge i (k+1) with h | h
      · have hi' : i ≤ k := by omega
        rw [fwdStep]
        simp only []
        rw [entry_set_ne _ _ _ _ (by omega)]
        exact ihd i hi'
      · have hie : i = k + 1 := by omega
        subst hie
        rw [fwdStep]
        simp only []
        rw [entry_set_self _ _ _ (by rw [hdlen]; omega)]
        have e1 : entry (forwardLoop (thomasInit lo dia up rh) k).d (k+1-1)
            = elimDiag (entry lo) (entry dia) (entry up) k := by
          simpa using ihd k (le_refl k)
        have e2 : entry (forwardLoop (thomasInit lo dia up rh) k).d (k+1) = entry dia (k+1) :=
          ihdg (k+1) (by omega)
        rw [e1, e2, hb, hc, elimDiag]
        simp
    · intro i hi
      rw [fwdStep]
      simp only []
      rw [entry_set_ne _ _ _ _ (by omega)]
      exact ihdg i (by omega)
    · intro i hi
      rcases Nat.lt_or_ge i (k+1) with h | h
      · have hi' : i ≤ k := by omega
        rw [fwdStep]
        simp only []
        rw [entry_set_ne _ _ _ _ (by omega)]
        exact ihy i hi'
      · have hie : i = k + 1 := by omega
        subst hie
        rw [fwdStep]
        simp only []
        rw [entry_set_self _ _ _ (by rw [hylen]; omega)]
        have e0 : entry (forwardLoop (thomasInit lo dia up rh) k).d (k+1-1)
            = elimDiag (entry lo) (entry dia) (entry up) k := by
          simpa using ihd k (le_refl k)
        have e1 : entry (forwardLoop (thomasInit lo dia up rh) k).y (k+1-1)
            = elimRhs (entry lo) (entry dia) (entry up) (entry rh) k := by
          simpa using ihy k (le_refl k)
        have e2 : entry (forwardLoop (thomasInit lo dia up rh) k).y (k+1) = entry rh (k+1) :=
          ihyg (k+1) (by omega)
        rw [e0, e1, e2, hb, elimRhs]
        simp
    · intro i hi
      rw [fwdStep]
      simp only []
      rw [entry_set_ne _ _ _ _ (by omega)]
      exact ihyg i (by omega)


theorem xSol_last (sub dia sup rhs : ℕ → ℚ) (n : ℕ) :
    xSol sub dia sup rhs n (n-1)
      = elimRhs sub dia sup rhs (n-1) / elimDiag sub dia sup (n-1) := by
  have h : n - 1 - (n - 1) = 0 := by omega
  rw [xSol, h, backSub]

theorem xSol_rec (sub dia sup rhs : ℕ → ℚ) (n j : ℕ) (h : j + 1 ≤ n - 1) :
    xSol sub dia sup rhs n j
      = (elimRhs sub dia sup rhs j - sup j * xSol sub dia sup rhs n (j+1)) /
        elimDiag sub dia sup j := by
  have h1 : n - 1 - j = (n - 2 - j) + 1 := by omega
  rw [xSol, h1, backSub]
  have h2 : n - 2 - (n - 2 - j) = j := by omega
  have h3 : n - 2 - j = n - 1 - (j + 1) := by omega
  rw [h2, h3]
  rfl

theorem thomasPreBack_fields (lo dia up rh : List ℚ) :
    (thomasPreBack lo dia up rh).y = (forwardLoop (thomasInit lo dia up rh) (dia.length - 1)).y ∧
    (thomasPreBack lo dia up rh).d = (forwardLoop (thomasInit lo dia up rh) (dia.length - 1)).d ∧
    (thomasPreBack lo dia up rh).c = up := by
  refine ⟨rfl, rfl, ?_⟩
  exact (forwardLoop_fields (thomasInit lo dia up rh) (dia.length - 1)).2.2.2.2.1

theorem thomasPreBack_x_length (lo dia up rh : List ℚ) :
    (thomasPreBack lo dia up rh).x.length = dia.length := by
  rw [thomasPreBack]
  simp only [List.length_set]
  rw [(forwardLoop_fields (thomasInit lo dia up rh) (dia.length - 1)).2.2.2.2.2.2]
  simp [thomasInit]

theorem backward_inv (lo dia up rh : List ℚ) (hr : rh.length = dia.length)
    (hn : 1 ≤ dia.length) :
    ∀ k, k ≤ dia.length - 1 →
    ∀ i, dia.length - 1 - k ≤ i → i ≤ dia.length - 1 →
    entry (backwardLoop (thomasPreBack lo dia up rh) dia.length k).x i =
      xSol (entry lo) (entry dia) (entry up) (entry rh) dia.length i := by
  have hfwd := forward_inv lo dia up rh hr (dia.length - 1) (le_refl _)
  have hpre := thomasPreBack_fields lo dia up rh
  intro k
  induction k with
  | zero =>
    intro _ i hi1 hi2
    have hie : i = dia.length - 1 := by omega
    subst hie
    rw [backwardLoop, thomasPreBack]
    simp only []
    rw [entry_set_self _ _ _ (by
      rw [(forwardLoop_fields (thomasInit lo dia up rh) (dia.length - 1)).2.2.2.2.2.2]
      simp [thomasInit]; omega)]
    rw [hfwd.1 _ (le_refl _), hfwd.2.2.1 _ (le_refl _), xSol_last]
  | succ k ih =>
    intro hk i hi1 hi2
    have hk' : k ≤ dia.length - 1 := Nat.le_of_succ_le hk
    have hbfld := backwardLoop_fields (thomasPreBack lo dia up rh) dia.length k
    have hxlen : (backwardLoop (thomasPreBack lo dia up rh) dia.length k).x.length
        = dia.length := by
      rw [backwardLoop_x_length, thomasPreBack_x_length]
    rw [backwardLoop, backStep]
    simp only []
    rcases Nat.lt_or_ge (dia.length - 2 - k) i with h | h
    · rw [entry_set_ne _ _ _ _ (by omega)]
      exact ih hk' i (by omega) hi2
    · have hie : i = dia.length - 2 - k := by omega
      subst hie
      rw [entry_set_self _ _ _ (by rw [hxlen]; omega)]
      have hy : entry (backwardLoop (thomasPreBack lo dia up rh) dia.length k).y
          (dia.length - 2 - k)
          = elimRhs (entry lo) (entry dia) (entry up) (entry rh) (dia.length - 2 - k) := by
        rw [hbfld.2.2.2.2.2.2.2, hpre.1]
        exact hfwd.2.2.1 _ (by omega)
      have hd : entry (backwardLoop (thomasPreBack lo dia up rh) dia.length k).d
          (dia.length - 2 - k)
          = elimDiag (entry lo) (entry dia) (entry up) (dia.length - 2 - k) := by
        rw [hbfld.2.2.2.2.2.1, hpre.2.1]
        exact hfwd.1 _ (by omega)
      have hcc : (backwardLoop (thomasPreBack lo dia up rh) dia.length k).c = up := by
        rw [hbfld.2.2.2.2.1, hpre.2.2]
      have hx1 : entry (backwardLoop (thomasPreBack lo dia up rh) dia.length k).x
          (dia.length - 2 - k + 1)
          = xSol (entry lo) (entry dia) (entry up) (entry rh) dia.length
              (dia.length - 2 - k + 1) :=
        ih hk' _ (by omega) (by omega)
      rw [hy, hd, hcc, hx1]
      rw [xSol_rec (entry lo) (entry dia) (entry up) (entry rh) dia.length
        (dia.length - 2 - k) (by omega)]

theorem thomasRun_x_entry (lo dia up rh : List ℚ) (hr : rh.length = dia.length)
    (hn : 1 ≤ dia.length) (i : ℕ) (hi : i < dia.length) :
    entry (thomasRun lo dia up rh).x i =
      xSol (entry lo) (entry dia) (entry up) (entry rh) dia.length i :=
  backward_inv lo dia up rh hr hn (dia.length - 1) (le_refl _) i (by omega) (by omega)

theorem thomasRun_x_length (lo dia up rh : List ℚ) :
    (thomasRun lo dia up rh).x.length = dia.length := by
  rw [thomasRun, backwardLoop_x_length, thomasPreBack_x_length]

/-! ## Row satisfaction for the Thomas algorithm -/

theorem xSol_last_mul (sub dia sup rhs : ℕ → ℚ) (n : ℕ)
    (hd : elimDiag sub dia sup (n-1) ≠ 0) :
    elimDiag sub dia sup (n-1) * xSol sub dia sup rhs n (n-1)
      = elimRhs sub dia sup rhs (n-1) := by
  rw [xSol_last]
  field_simp

theorem xSol_mid_mul (sub dia sup rhs : ℕ → ℚ) (n i : ℕ) (h : i + 1 ≤ n - 1)
    (hd : elimDiag sub dia sup i ≠ 0) :
    elimDiag sub dia sup i * xSol sub dia sup rhs n i
      + sup i * xSol sub dia sup rhs n (i+1) = elimRhs sub dia sup rhs i := by
  rw [xSol_rec sub dia sup rhs n i h]
  field_simp

theorem xSol_rows (sub dia sup rhs : ℕ → ℚ) (n : ℕ) (hn : 1 ≤ n)
    (hpiv : ∀ j < n, elimDiag sub dia sup j ≠ 0) (i : ℕ) (hi : i < n) :
    (if 1 ≤ i then sub (i-1) * xSol sub dia sup rhs n (i-1) else 0)
      + dia i * xSol sub dia sup rhs n i
      + (if i + 1 < n then sup i * xSol sub dia sup rhs n (i+1) else 0) = rhs i := by
  rcases i with _ | j
  · rw [if_neg (by omega)]
    rcases Nat.lt_or_ge 1 n with h2 | h2
    · rw [if_pos (by omega)]
      have h := xSol_mid_mul sub dia sup rhs n 0 (by omega) (hpiv 0 (by omega))
      simpa [elimDiag, elimRhs] using h
    · have hn1 : n = 1 := by omega
      subst hn1
      rw [if_neg (by omega)]
      have h := xSol_last_mul sub dia sup rhs 1 (hpiv 0 (by omega))
      simpa [elimDiag, elimRhs] using h
  · have hdj := hpiv j (by omega)
    have hdia : dia (j+1) = elimDiag sub dia sup (j+1)
        + sub j / elimDiag sub dia sup j * sup j := by
      rw [elimDiag]; ring
    have hrhs : rhs (j+1) = elimRhs sub dia sup rhs (j+1)
        + sub j / elimDiag sub dia sup j * elimRhs sub dia sup rhs j := by
      rw [elimRhs]; ring
    have h1 := xSol_mid_mul sub dia sup rhs n j (by omega) hdj
    have hw := div_mul_cancel₀ (sub j) hdj
    rw [if_pos (by omega : 1 ≤ j+1)]
    simp only [Nat.add_sub_cancel]
    rcases Nat.lt_or_ge (j+1+1) n with h2 | h2
    · rw [if_pos h2]
      have h3 := xSol_mid_mul sub dia sup rhs n (j+1) (by omega) (hpiv (j+1) hi)
      rw [hdia, hrhs]
      linear_combination h3 + (sub j / elimDiag sub dia sup j) * h1
        - xSol sub dia sup rhs n j * hw
    · rw [if_neg (by omega)]
      have hje : j + 1 = n - 1 := by omega
      have h3 := xSol_last_mul sub dia sup rhs n (by rw [← hje]; exact hpiv (j+1) hi)
      rw [← hje] at h3
      rw [hdia, hrhs]
      linear_combination h3 + (sub j / elimDiag sub dia sup j) * h1
        - xSol sub dia sup rhs n j * hw

theorem thomas_solve_eq_ok (lo dia up rh : List ℚ) (hr : rh.length = dia.length) :
    thomas_solve lo dia up rh = Except.ok (thomasRun lo dia up rh).x := by
  rw [thomas_solve, if_neg (by simp [hr])]

/-! ## Claims about the tridiagonal solver -/

theorem elimDiag_congr (sub1 sub2 dia sup1 sup2 : ℕ → ℚ) :
    ∀ i, (∀ j < i, sub1 j = sub2 j) → (∀ j < i, sup1 j = sup2 j) →
      elimDiag sub1 dia sup1 i = elimDiag sub2 dia sup2 i := by
  intro i
  induction i with
  | zero => intro _ _; rfl
  | succ i ih =>
    intro h1 h2
    rw [elimDiag, elimDiag, ih (fun j hj => h1 j (by omega)) (fun j hj => h2 j (by omega)),
      h1 i (by omega), h2 i (by omega)]

theorem elimRhs_congr (sub1 sub2 dia sup1 sup2 rhs : ℕ → ℚ) :
    ∀ i, (∀ j < i, sub1 j = sub2 j) → (∀ j < i, sup1 j = sup2 j) →
      elimRhs sub1 dia sup1 rhs i = elimRhs sub2 dia sup2 rhs i := by
  intro i
  induction i with
  | zero => intro _ _; rfl
  | succ i ih =>
    intro h1 h2
    rw [elimRhs, elimRhs, ih (fun j hj => h1 j (by omega)) (fun j hj => h2 j (by omega)),
      elimDiag_congr sub1 sub2 dia sup1 sup2 i (fun j hj => h1 j (by omega))
        (fun j hj => h2 j (by omega)),
      h1 i (by omega)]

theorem backSub_congr (sub1 sub2 dia sup1 sup2 rhs : ℕ → ℚ) (n : ℕ)
    (h1 : ∀ j, j < n - 1 → sub1 j = sub2 j) (h2 : ∀ j, j < n - 1 → sup1 j = sup2 j) :
    ∀ k, k ≤ n - 1 → backSub sub1 dia sup1 rhs n k = backSub sub2 dia sup2 rhs n k := by
  intro k
  induction k with
  | zero =>
    intro _
    rw [backSub, backSub, elimDiag_congr sub1 sub2 dia sup1 sup2 (n-1) h1 h2,
      elimRhs_congr sub1 sub2 dia sup1 sup2 rhs (n-1) h1 h2]
  | succ k ih =>
    intro hk
    rw [backSub, backSub, ih (by omega),
      elimDiag_congr sub1 sub2 dia sup1 sup2 (n-2-k) (fun j hj => h1 j (by omega))
        (fun j hj => h2 j (by omega)),
      elimRhs_congr sub1 sub2 dia sup1 sup2 rhs (n-2-k) (fun j hj => h1 j (by omega))
        (fun j hj => h2 j (by omega)),
      h2 (n-2-k) (by omega)]

/-- C8: `_thomas_solve` operates only on its private copies c, d, b, y
and the fresh output x: the four caller-owned arrays lower, diag, upper
and rhs are unchanged by the full run (copies, forward sweep, x[-1]
assignment, backward sweep), so the implicit-operator arrays the engine
passes are identical before and after each of its per-step solves. -/
theorem thomas_solve_preserves_inputs (lo dia up rh : List ℚ) :
    (thomasRun lo dia up rh).lower = lo ∧ (thomasRun lo dia up rh).diag = dia ∧
    (thomasRun lo dia up rh).upper = up ∧ (thomasRun lo dia up rh).rhs = rh := by
  have hb := backwardLoop_fields (thomasPreBack lo dia up rh) dia.length (dia.length - 1)
  have hf := forwardLoop_fields (thomasInit lo dia up rh) (dia.length - 1)
  exact ⟨hb.1.trans hf.1, hb.2.1.trans hf.2.1, hb.2.2.1.trans hf.2.2.1,
    hb.2.2.2.1.trans hf.2.2.2.1⟩

/-- C2: on any size-consistent input `_thomas_solve` succeeds and its
output is exactly the solution of the spec's forward sweep followed by
the spec's backward sweep (the xSol recurrences); in particular on the
hand-constructed system n=3, diag {2,2,2}, sub/super {-1,-1},
rhs {1,0,1} it returns exactly {1,1,1} (exact rationals, so the
floating-point tolerance is met exactly). -/
theorem thomas_solve_performs_sweeps (lo dia up rh : List ℚ)
    (hr : rh.length = dia.length) (hn : 1 ≤ dia.length) :
    (∃ x, thomas_solve lo dia up rh = Except.ok x ∧ x.length = dia.length ∧
      ∀ i < dia.length, entry x i
        = xSol (entry lo) (entry dia) (entry up) (entry rh) dia.length i) ∧
    thomas_solve [-1,-1] [2,2,2] [-1,-1] [1,0,1] = Except.ok [1,1,1] := by
  constructor
  · exact ⟨(thomasRun lo dia up rh).x, thomas_solve_eq_ok lo dia up rh hr,
      thomasRun_x_length lo dia up rh,
      fun i hi => thomasRun_x_entry lo dia up rh hr hn i hi⟩
  · norm_num [thomas_solve, thomasRun, thomasPreBack, thomasInit, forwardLoop, backwardLoop,
      fwdStep, backStep, entry, List.replicate]

theorem thomas_solve_performs_sweeps_witness :
    (([1,0,1] : List ℚ).length = ([2,2,2] : List ℚ).length) ∧
    ((∃ x, thomas_solve [-1,-1] [2,2,2] [-1,-1] [1,0,1] = Except.ok x ∧
        x.length = ([2,2,2] : List ℚ).length ∧
        ∀ i < ([2,2,2] : List ℚ).length, entry x i
          = xSol (entry [-1,-1]) (entry [2,2,2]) (entry [-1,-1]) (entry [1,0,1])
              ([2,2,2] : List ℚ).length i) ∧
      thomas_solve [-1,-1] [2,2,2] [-1,-1] [1,0,1] = Except.ok [1,1,1]) :=
  ⟨rfl, thomas_solve_performs_sweeps [-1,-1] [2,2,2] [-1,-1] [1,0,1] rfl (by norm_num)⟩

/-- C6: `_thomas_solve` fails (with the size-mismatch error) exactly when
the right-hand-side length differs from the diagonal length; otherwise,
for well-formed bands and non-vanishing eliminated pivots it returns a
vector x of length n with (tridiagonal matrix) * x = rhs. -/
theorem thomas_solve_contract (lo dia up rh : List ℚ) :
    ((∃ e, thomas_solve lo dia up rh = Except.error e) ↔ rh.length ≠ dia.length) ∧
    (rh.length = dia.length → 1 ≤ dia.length →
      lo.length = dia.length - 1 → up.length = dia.length - 1 →
      (∀ j < dia.length, elimDiag (entry lo) (entry dia) (entry up) j ≠ 0) →
      ∃ x, thomas_solve lo dia up rh = Except.ok x ∧ x.length = dia.length ∧
        tridiagMul lo dia up x = rh) := by
  constructor
  · constructor
    · rintro ⟨e, he⟩
      by_contra hcon
      rw [thomas_solve, if_neg (not_not_intro hcon)] at he
      exact Except.noConfusion he
    · intro hne
      rw [thomas_solve, if_pos hne]
      exact ⟨_, rfl⟩
  · intro hr hn _hl _hu hpiv
    refine ⟨(thomasRun lo dia up rh).x, thomas_solve_eq_ok lo dia up rh hr,
      thomasRun_x_length lo dia up rh, ?_⟩
    apply list_eq_of_entry_eq
    · simp [tridiagMul, hr]
    · intro i hi
      have hi' : i < dia.length := by simpa [tridiagMul] using hi
      rw [tridiagMul, entry_map_range _ _ _ hi', tridiagRow]
      have hx := fun j hj => thomasRun_x_entry lo dia up rh hr hn j hj
      have hrow := xSol_rows (entry lo) (entry dia) (entry up) (entry rh)
        dia.length hn hpiv i hi'
      rcases Nat.lt_or_ge (i+1) dia.length with hlt | hge
      · by_cases h1 : 1 ≤ i
        · rw [if_pos h1, if_pos hlt, hx (i-1) (by omega), hx i hi', hx (i+1) hlt]
          rw [if_pos h1, if_pos hlt] at hrow
          exact hrow
        · rw [if_neg h1, if_pos hlt, hx i hi', hx (i+1) hlt]
          rw [if_neg h1, if_pos hlt] at hrow
          exact hrow
      · by_cases h1 : 1 ≤ i
        · rw [if_pos h1, if_neg (by omega), hx (i-1) (by omega), hx i hi']
          rw [if_pos h1, if_neg (by omega)] at hrow
          exact hrow
        · rw [if_neg h1, if_neg (by omega), hx i hi']
          rw [if_neg h1, if_neg (by omega)] at hrow
          exact hrow

theorem thomas_solve_contract_witness :
    ∃ x, thomas_solve [] [2] [] [4] = Except.ok x ∧ x.length = ([2] : List ℚ).length ∧
      tridiagMul [] [2] [] x = [4] :=
  (thomas_solve_contract [] [2] [] [4]).2 rfl (by norm_num) rfl rfl
    (by intro j hj; simp at hj; subst hj; norm_num [elimDiag, entry])

/-- C7 counterexample: on the system with diagonal {0} (a pivot that is
exactly zero) and rhs {1}, `_thomas_solve` does not fail: it returns a
result (numpy float division by zero produces non-finite values and a
warning, not an error; in the rational model division by zero is total). -/
theorem thomas_solve_zero_pivot_cex :
    elimDiag (entry ([] : List ℚ)) (entry [0]) (entry ([] : List ℚ)) 0 = 0 ∧
    thomas_solve [] [0] [] [1] = Except.ok [0] := by
  constructor
  · norm_num [elimDiag, entry]
  · norm_num [thomas_solve, thomasRun, thomasPreBack, thomasInit, forwardLoop, backwardLoop,
      fwdStep, backStep, entry, List.replicate]

/-- C7 amended: when a computed pivot is exactly zero the algorithm does
not raise a singular-system error; the division is performed anyway and,
whenever the rhs length matches the diagonal length, a result vector is
still returned. -/
theorem thomas_solve_zero_pivot_returns (lo dia up rh : List ℚ)
    (hr : rh.length = dia.length)
    (_hz : ∃ j, j < dia.length ∧ elimDiag (entry lo) (entry dia) (entry up) j = 0) :
    ∃ x, thomas_solve lo dia up rh = Except.ok x :=
  ⟨_, thomas_solve_eq_ok lo dia up rh hr⟩

theorem thomas_solve_zero_pivot_returns_witness :
    ∃ x, thomas_solve [] [0] [] [1] = Except.ok x :=
  thomas_solve_zero_pivot_returns [] [0] [] [1] rfl
    ⟨0, by norm_num, by norm_num [elimDiag, entry]⟩

/-- C10: `_thomas_solve` never validates the band lengths: with a
matching rhs it always succeeds, and its result only depends on the
first n-1 entries of the sub- and super-diagonal arrays, so longer bands
are silently accepted. -/
theorem thomas_solve_no_band_validation (lo dia up rh : List ℚ)
    (hr : rh.length = dia.length) :
    (∃ x, thomas_solve lo dia up rh = Except.ok x) ∧
    thomas_solve lo dia up rh
      = thomas_solve (lo.take (dia.length - 1)) dia (up.take (dia.length - 1)) rh := by
  constructor
  · exact ⟨_, thomas_solve_eq_ok lo dia up rh hr⟩
  · rw [thomas_solve_eq_ok lo dia up rh hr, thomas_solve_eq_ok _ _ _ _ hr]
    congr 1
    rcases Nat.eq_zero_or_pos dia.length with h0 | hpos
    · have h1 : (thomasRun lo dia up rh).x = [] :=
        List.length_eq_zero.mp ((thomasRun_x_length lo dia up rh).trans h0)
      have h2 : (thomasRun (lo.take (dia.length - 1)) dia (up.take (dia.length - 1)) rh).x = [] :=
        List.length_eq_zero.mp ((thomasRun_x_length _ dia _ rh).trans h0)
      rw [h1, h2]
    · apply list_eq_of_entry_eq
      · rw [thomasRun_x_length, thomasRun_x_length]
      · intro i hi
        have hi' : i < dia.length := by rwa [thomasRun_x_length] at hi
        rw [thomasRun_x_entry lo dia up rh hr hpos i hi',
          thomasRun_x_entry _ dia _ rh hr hpos i hi', xSol, xSol]
        apply backSub_congr _ _ _ _ _ _ dia.length
          (fun j hj => (entry_take _ _ _ hj).symm)
          (fun j hj => (entry_take _ _ _ hj).symm)
        omega

theorem thomas_solve_no_band_validation_witness :
    (∃ x, thomas_solve [5,6,7] [2,2,2] [8,9,10] [1,0,1] = Except.ok x) ∧
    thomas_solve [5,6,7] [2,2,2] [8,9,10] [1,0,1]
      = thomas_solve (([5,6,7] : List ℚ).take (([2,2,2] : List ℚ).length - 1)) [2,2,2]
          (([8,9,10] : List ℚ).take (([2,2,2] : List ℚ).length - 1)) [1,0,1] :=
  thomas_solve_no_band_validation [5,6,7] [2,2,2] [8,9,10] [1,0,1] rfl

/-! ## Claims about the grid engine: coefficients, Smax, adaptive module -/

theorem length_Sgrid (Smax : ℚ) (M : ℕ) : (Sgrid Smax M).length = M + 1 := by
  rw [Sgrid, List.length_map, List.length_range]

theorem length_interiorS (Smax : ℚ) (M : ℕ) : (interiorS Smax M).length = M - 1 := by
  simp [interiorS]

theorem length_Alist (r sigma Smax : ℚ) (M : ℕ) : (Alist r sigma Smax M).length = M - 1 := by
  simp [Alist, length_interiorS]

theorem length_Blist (r sigma Smax : ℚ) (M : ℕ) : (Blist r sigma Smax M).length = M - 1 := by
  simp [Blist, length_interiorS]

theorem length_Clist (r sigma Smax : ℚ) (M : ℕ) : (Clist r sigma Smax M).length = M - 1 := by
  simp [Clist, length_interiorS]

theorem length_diagL (dt r sigma Smax : ℚ) (M : ℕ) :
    (diagL dt r sigma Smax M).length = M - 1 := by
  simp [diagL, length_Blist]

theorem length_diagR (dt r sigma Smax : ℚ) (M : ℕ) :
    (diagR dt r sigma Smax M).length = M - 1 := by
  simp [diagR, length_Blist]

theorem length_lowerL (dt r sigma Smax : ℚ) (M : ℕ) :
    (lowerL dt r sigma Smax M).length = M - 2 := by
  simp [lowerL, length_Alist]
  omega

theorem length_upperL (dt r sigma Smax : ℚ) (M : ℕ) :
    (upperL dt r sigma Smax M).length = M - 2 := by
  simp [upperL, length_Clist]
  omega

theorem length_lowerR (dt r sigma Smax : ℚ) (M : ℕ) :
    (lowerR dt r sigma Smax M).length = M - 2 := by
  simp [lowerR, length_Alist]
  omega

theorem length_upperR (dt r sigma Smax : ℚ) (M : ℕ) :
    (upperR dt r sigma Smax M).length = M - 2 := by
  simp [upperR, length_Clist]
  omega

theorem length_cnRhs (dt : ℚ) (M : ℕ) (dgR lowR upR A C : List ℚ)
    (V0n VMn V0n1 VMn1 : ℚ) (Vin : List ℚ) :
    (cnRhs dt M dgR lowR upR A C V0n VMn V0n1 VMn1 Vin).length = M - 1 := by
  simp [cnRhs]

theorem entry_Sgrid (Smax : ℚ) (M i : ℕ) (h : i < M + 1) :
    entry (Sgrid Smax M) i = Smax * (i : ℚ) / (M : ℚ) := by
  rw [Sgrid, entry_map_range _ _ _ h]

theorem entry_interiorS (Smax : ℚ) (M j : ℕ) (h : j < M - 1) :
    entry (interiorS Smax M) j = entry (Sgrid Smax M) (1 + j) := by
  rw [interiorS, entry_map_range' _ _ _ _ h]

theorem entry_Alist (r sigma Smax : ℚ) (M j : ℕ) (h : j < M - 1) :
    entry (Alist r sigma Smax M) j
      = coeffA r sigma (Smax / M) (entry (Sgrid Smax M) (1 + j)) := by
  rw [Alist, entry_map_of_lt _ _ _ (by rw [length_interiorS]; exact h), entry_interiorS _ _ _ h]

theorem entry_Blist (r sigma Smax : ℚ) (M j : ℕ) (h : j < M - 1) :
    entry (Blist r sigma Smax M) j
      = coeffB r sigma (Smax / M) (entry (Sgrid Smax M) (1 + j)) := by
  rw [Blist, entry_map_of_lt _ _ _ (by rw [length_interiorS]; exact h), entry_interiorS _ _ _ h]

theorem entry_Clist (r sigma Smax : ℚ) (M j : ℕ) (h : j < M - 1) :
    entry (Clist r sigma Smax M) j
      = coeffC r sigma (Smax / M) (entry (Sgrid Smax M) (1 + j)) := by
  rw [Clist, entry_map_of_lt _ _ _ (by rw [length_interiorS]; exact h), entry_interiorS _ _ _ h]

/-- C1: for every interior node i = 1..M-1 the three space-discretization
coefficients are exactly A_i = alpha_i/dS^2 - beta_i/(2 dS),
B_i = -2 alpha_i/dS^2 - r, C_i = alpha_i/dS^2 + beta_i/(2 dS) with
alpha_i = 0.5 sigma^2 S_i^2 and beta_i = r S_i, and the Crank-Nicolson
operators carry 1 minus/plus 0.5 dt B on the diagonals and the
corresponding 0.5 dt A, C terms on the off-diagonals, shifted exactly as
in the spec. -/
theorem coefficients_and_operators (r sigma Smax dt : ℚ) (M : ℕ) (hM : 3 ≤ M) :
    (∀ i, 1 ≤ i → i ≤ M - 1 →
      entry (Alist r sigma Smax M) (i-1)
          = (1/2 * sigma^2 * (entry (Sgrid Smax M) i)^2) / (Smax/M)^2
            - (r * entry (Sgrid Smax M) i) / (2 * (Smax/M)) ∧
      entry (Blist r sigma Smax M) (i-1)
          = -2 * (1/2 * sigma^2 * (entry (Sgrid Smax M) i)^2) / (Smax/M)^2 - r ∧
      entry (Clist r sigma Smax M) (i-1)
          = (1/2 * sigma^2 * (entry (Sgrid Smax M) i)^2) / (Smax/M)^2
            + (r * entry (Sgrid Smax M) i) / (2 * (Smax/M))) ∧
    (∀ j, j < M - 1 →
      entry (diagL dt r sigma Smax M) j = 1 - 1/2 * dt * entry (Blist r sigma Smax M) j ∧
      entry (diagR dt r sigma Smax M) j = 1 + 1/2 * dt * entry (Blist r sigma Smax M) j) ∧
    (∀ j, j < M - 2 →
      entry (lowerL dt r sigma Smax M) j = -(1/2 * dt * entry (Alist r sigma Smax M) (j+1)) ∧
      entry (upperL dt r sigma Smax M) j = -(1/2 * dt * entry (Clist r sigma Smax M) j) ∧
      entry (lowerR dt r sigma Smax M) j = 1/2 * dt * entry (Alist r sigma Smax M) (j+1) ∧
      entry (upperR dt r sigma Smax M) j = 1/2 * dt * entry (Clist r sigma Smax M) j) := by
  refine ⟨?_, ?_, ?_⟩
  · intro i h1 h2
    have hj : i - 1 < M - 1 := by omega
    have hi : 1 + (i - 1) = i := by omega
    refine ⟨?_, ?_, ?_⟩
    · rw [entry_Alist _ _ _ _ _ hj, hi, coeffA, alphaCoef, betaCoef]; ring
    · rw [entry_Blist _ _ _ _ _ hj, hi, coeffB, alphaCoef]; ring
    · rw [entry_Clist _ _ _ _ _ hj, hi, coeffC, alphaCoef, betaCoef]; ring
  · intro j hj
    constructor
    · rw [diagL, entry_map_of_lt _ _ _ (by rw [length_Blist]; exact hj)]
    · rw [diagR, entry_map_of_lt _ _ _ (by rw [length_Blist]; exact hj)]
  · intro j hj
    have hdrop : j < ((Alist r sigma Smax M).drop 1).length := by
      simp [length_Alist]; omega
    have hdl : j < ((Clist r sigma Smax M).dropLast).length := by
      simp [length_Clist]; omega
    have hcl : j + 1 < (Clist r sigma Smax M).length := by
      rw [length_Clist]; omega
    refine ⟨?_, ?_, ?_, ?_⟩
    · rw [lowerL, entry_map_of_lt _ _ _ hdrop, entry_drop_one]; ring
    · rw [upperL, entry_map_of_lt _ _ _ hdl, entry_dropLast _ _ hcl]; ring
    · rw [lowerR, entry_map_of_lt _ _ _ hdrop, entry_drop_one]
    · rw [upperR, entry_map_of_lt _ _ _ hdl, entry_dropLast _ _ hcl]

theorem coefficients_and_operators_witness :
    (entry (Alist 1 1 3 3) 0
        = (1/2 * 1^2 * (entry (Sgrid 3 3) 1)^2) / ((3:ℚ)/3)^2
          - (1 * entry (Sgrid 3 3) 1) / (2 * ((3:ℚ)/3))) ∧
    entry (diagL 1 1 1 3 3) 0 = 1 - 1/2 * 1 * entry (Blist 1 1 3 3) 0 ∧
    entry (lowerL 1 1 1 3 3) 0 = -(1/2 * 1 * entry (Alist 1 1 3 3) 1) := by
  have h := coefficients_and_operators 1 1 3 1 3 (by norm_num)
  exact ⟨(h.1 1 (by norm_num) (by norm_num)).1, (h.2.1 0 (by norm_num)).1,
    (h.2.2 0 (by norm_num)).1⟩

/-- C5: the engine's Smax resolution defaults to S_MAX_MULTIPLIER (= 3)
times the strike when the caller passes none; whenever the caller-or-
default Smax does not exceed S0 it is enlarged to at least 1.5*S0; and
for every positive S0 the resolved Smax strictly exceeds S0, so the spot
lies strictly inside the grid (0, Smax). -/
theorem smax_resolution (S0 K : ℚ) (SmaxOpt : Option ℚ) :
    (S0 < S_MAX_MULTIPLIER * K → resolveSmax K S0 none = S_MAX_MULTIPLIER * K) ∧
    (SmaxOpt.getD (S_MAX_MULTIPLIER * K) ≤ S0 → 3/2 * S0 ≤ resolveSmax K S0 SmaxOpt) ∧
    (0 < S0 → S0 < resolveSmax K S0 SmaxOpt) := by
  refine ⟨?_, ?_, ?_⟩
  · intro h
    simp only [resolveSmax, Option.getD_none]
    rw [if_neg (not_le.mpr h)]
  · intro h
    simp only [resolveSmax]
    rw [if_pos h]
    exact le_max_right _ _
  · intro h
    simp only [resolveSmax]
    by_cases hc : SmaxOpt.getD (S_MAX_MULTIPLIER * K) ≤ S0
    · rw [if_pos hc]
      have h2 : S0 < 3/2 * S0 := by linarith
      exact lt_of_lt_of_le h2 (le_max_right _ _)
    · rw [if_neg hc]
      exact not_le.mp hc

theorem smax_resolution_witness :
    resolveSmax 100 50 none = S_MAX_MULTIPLIER * 100 ∧
    3/2 * 400 ≤ resolveSmax 100 (400 : ℚ) none ∧
    (50 : ℚ) < resolveSmax 100 50 none :=
  ⟨(smax_resolution 50 100 none).1 (by norm_num [S_MAX_MULTIPLIER]),
   (smax_resolution 400 100 none).2.1 (by norm_num [S_MAX_MULTIPLIER]),
   (smax_resolution 50 100 none).2.2 (by norm_num)⟩

/-- C9 (code-bug evidence): config.py defines no name PDEConfig, so the
`from .config import PDEConfig` at the top of pde_adaptive_time.py fails
and calling price_option_adaptive_time ends in an import failure; the
dedicated NotImplementedError in the function body is never reached. -/
theorem adaptive_call_fails_at_import :
    call_price_option_adaptive_time = AdaptiveCallResult.importFailure "PDEConfig" ∧
    ¬("PDEConfig" ∈ configDefinedNames) ∧
    price_option_adaptive_time_body
      = Except.error "NotImplementedError: Adaptive time-stepping solver not yet implemented" := by
  refine ⟨?_, ?_, rfl⟩
  · rfl
  · decide

/-! ## Claim about boundary handling in the time loop -/

theorem length_stepRhs (epsExp : ℚ → ℚ) (K r Smax dt : ℚ) (optCall : Bool) (M : ℕ)
    (dgR lowR upR A C : List ℚ) (V : List ℚ) (n : ℕ) :
    (stepRhs epsExp K r Smax dt optCall M dgR lowR upR A C V n).length = M - 1 := by
  rw [stepRhs, length_cnRhs]

theorem engine_solve_never_fails (epsExp : ℚ → ℚ) (K r sigma Smax dt : ℚ) (optCall : Bool)
    (M : ℕ) (V : List ℚ) (n : ℕ) :
    thomas_solve (lowerL dt r sigma Smax M) (diagL dt r sigma Smax M) (upperL dt r sigma Smax M)
      (stepRhs epsExp K r Smax dt optCall M (diagR dt r sigma Smax M) (lowerR dt r sigma Smax M)
        (upperR dt r sigma Smax M) (Alist r sigma Smax M) (Clist r sigma Smax M) V n)
      = Except.ok (thomasRun (lowerL dt r sigma Smax M) (diagL dt r sigma Smax M)
          (upperL dt r sigma Smax M)
          (stepRhs epsExp K r Smax dt optCall M (diagR dt r sigma Smax M)
            (lowerR dt r sigma Smax M) (upperR dt r sigma Smax M) (Alist r sigma Smax M)
            (Clist r sigma Smax M) V n)).x :=
  thomas_solve_eq_ok _ _ _ _ (by rw [length_stepRhs, length_diagL])

theorem length_engineSolve (epsExp : ℚ → ℚ) (K r sigma Smax dt : ℚ) (optCall : Bool)
    (M : ℕ) (V : List ℚ) (n : ℕ) :
    (engineSolve epsExp K r sigma Smax dt optCall M V n).length = M - 1 := by
  rw [engineSolve, engine_solve_never_fails]
  rw [getOk, thomasRun_x_length, length_diagL]

theorem entry_cons_of_pos (a : ℚ) (l : List ℚ) (i : ℕ) (h : 1 ≤ i) :
    entry (a :: l) i = entry l (i-1) := by
  cases i with
  | zero => omega
  | succ j => rw [entry_cons_succ]; rfl

/-- C3: after every time step n the value vector has its two boundary
entries equal to the exact analytic boundary formulas at tau_{n+1}
(0 and Smax - K exp(-r tau) for a call; K exp(-r tau) and 0 for a put),
and every interior node 1..M-1 carries exactly the corresponding entry
of that step's tridiagonal-solver output; the boundary entries are never
taken from the solver output. -/
theorem boundary_values_exact (epsExp : ℚ → ℚ) (K r sigma Smax dt : ℚ) (optCall : Bool)
    (M N : ℕ) (hM : 3 ≤ M) (Vinit : List ℚ) (n : ℕ) (_hn : n < N) :
    (engineLoop epsExp K r sigma Smax dt optCall M Vinit (n+1)).length = M + 1 ∧
    entry (engineLoop epsExp K r sigma Smax dt optCall M Vinit (n+1)) 0
      = (if optCall then 0 else K * epsExp (-(r * (((n : ℚ) + 1) * dt)))) ∧
    entry (engineLoop epsExp K r sigma Smax dt optCall M Vinit (n+1)) M
      = (if optCall then Smax - K * epsExp (-(r * (((n : ℚ) + 1) * dt))) else 0) ∧
    (∀ i, 1 ≤ i → i ≤ M - 1 →
      entry (engineLoop epsExp K r sigma Smax dt optCall M Vinit (n+1)) i
        = entry (engineSolve epsExp K r sigma Smax dt optCall M
            (engineLoop epsExp K r sigma Smax dt optCall M Vinit n) n) (i-1)) := by
  have hV : engineLoop epsExp K r sigma Smax dt optCall M Vinit (n+1)
      = bndLow epsExp K r optCall ((n+1 : ℕ) * dt)
        :: (engineSolve epsExp K r sigma Smax dt optCall M
              (engineLoop epsExp K r sigma Smax dt optCall M Vinit n) n
            ++ [bndHigh epsExp K r Smax optCall ((n+1 : ℕ) * dt)]) := rfl
  have hlen := length_engineSolve epsExp K r sigma Smax dt optCall M
    (engineLoop epsExp K r sigma Smax dt optCall M Vinit n) n
  refine ⟨?_, ?_, ?_, ?_⟩
  · rw [hV]
    simp [hlen]
    omega
  · rw [hV, entry_cons_zero, bndLow]
    push_cast
    rfl
  · rw [hV, entry_cons_of_pos _ _ _ (by omega),
      entry_append_right _ _ _ (by rw [hlen]), hlen, Nat.sub_self, entry_cons_zero, bndHigh]
    push_cast
    rfl
  · intro i h1 h2
    rw [hV, entry_cons_of_pos _ _ _ h1, entry_append_left _ _ _ (by rw [hlen]; omega)]

theorem boundary_values_exact_witness :
    (engineLoop (fun _ => 1) 1 0 1 3 1 true 3 [0,0,1,2] (0+1)).length = 3 + 1 ∧
    entry (engineLoop (fun _ => 1) 1 0 1 3 1 true 3 [0,0,1,2] (0+1)) 0
      = (if true then 0 else 1 * (fun _ : ℚ => (1:ℚ)) (-(0 * (((0 : ℚ) + 1) * 1)))) ∧
    entry (engineLoop (fun _ => 1) 1 0 1 3 1 true 3 [0,0,1,2] (0+1)) 3
      = (if true then 3 - 1 * (fun _ : ℚ => (1:ℚ)) (-(0 * (((0 : ℚ) + 1) * 1))) else 0) ∧
    (∀ i, 1 ≤ i → i ≤ 3 - 1 →
      entry (engineLoop (fun _ => 1) 1 0 1 3 1 true 3 [0,0,1,2] (0+1)) i
        = entry (engineSolve (fun _ => 1) 1 0 1 3 1 true 3
            (engineLoop (fun _ => 1) 1 0 1 3 1 true 3 [0,0,1,2] 0) 0) (i-1)) :=
  boundary_values_exact (fun _ => 1) 1 0 1 3 1 true 3 1 (by norm_num) [0,0,1,2] 0 (by norm_num)

/-! ## Claim about engine input validation -/

/-- C4: every input with a non-positive spot, strike, expiry or
volatility, or an unrecognized option kind, produces an
invalid-parameter error; every input passing those checks but with
M < 3 or N < 1 produces the invalid-grid error; in all these cases no
price is returned. -/
theorem engine_validation (epsExp : ℚ → ℚ) (S0 K T r sigma : ℚ) (ot : String)
    (Mo No : Option ℤ) (Sm : Option ℚ) :
    ((S0 ≤ 0 ∨ K ≤ 0 ∨ T ≤ 0 ∨ sigma ≤ 0 ∨ (ot ≠ "call" ∧ ot ≠ "put")) →
      isInvalidParamError (price_european_fixed_grid epsExp S0 K T r sigma ot Mo No Sm) = true ∧
      ∀ p, price_european_fixed_grid epsExp S0 K T r sigma ot Mo No Sm ≠ Except.ok p) ∧
    ((0 < S0 ∧ 0 < K ∧ 0 < T ∧ 0 < sigma ∧ (ot = "call" ∨ ot = "put") ∧
        (Mo.getD DEFAULT_PRICE_STEPS < 3 ∨ No.getD DEFAULT_TIME_STEPS < 1)) →
      isInvalidGridError (price_european_fixed_grid epsExp S0 K T r sigma ot Mo No Sm) = true ∧
      ∀ p, price_european_fixed_grid epsExp S0 K T r sigma ot Mo No Sm ≠ Except.ok p) := by
  constructor
  · intro h
    by_cases h1 : S0 ≤ 0 ∨ K ≤ 0
    · have hv : validate_option_inputs S0 K T sigma
          = Except.error "Stock price and strike must be positive" := by
        rw [validate_option_inputs, if_pos h1]
      rw [price_european_fixed_grid, hv]
      exact ⟨rfl, fun p hp => Except.noConfusion hp⟩
    · by_cases h2 : T ≤ 0
      · have hv : validate_option_inputs S0 K T sigma
            = Except.error "Time to maturity must be positive" := by
          rw [validate_option_inputs, if_neg h1, if_pos h2]
        rw [price_european_fixed_grid, hv]
        exact ⟨rfl, fun p hp => Except.noConfusion hp⟩
      · by_cases h3 : sigma ≤ 0
        · have hv : validate_option_inputs S0 K T sigma
              = Except.error "Volatility must be positive" := by
            rw [validate_option_inputs, if_neg h1, if_neg h2, if_pos h3]
          rw [price_european_fixed_grid, hv]
          exact ⟨rfl, fun p hp => Except.noConfusion hp⟩
        · have hv : validate_option_inputs S0 K T sigma = Except.ok () := by
            rw [validate_option_inputs, if_neg h1, if_neg h2, if_neg h3]
          have hot : ¬(ot = "call" ∨ ot = "put") := by
            rcases h with h | h | h | h | h
            · exact absurd (Or.inl h) h1
            · exact absurd (Or.inr h) h1
            · exact absurd h h2
            · exact absurd h h3
            · rintro (hc | hc)
              · exact h.1 hc
              · exact h.2 hc
          rw [price_european_fixed_grid, hv]
          simp only [if_pos hot]
          exact ⟨rfl, fun p hp => Except.noConfusion hp⟩
  · rintro ⟨hS, hK, hT, hsig, hot, hMN⟩
    have hv : validate_option_inputs S0 K T sigma = Except.ok () := by
      rw [validate_option_inputs, if_neg (by push_neg; exact ⟨hS, hK⟩),
        if_neg (not_le.mpr hT), if_neg (not_le.mpr hsig)]
    rw [price_european_fixed_grid, hv]
    simp only [if_neg (not_not_intro hot)]
    rw [if_pos hMN]
    exact ⟨rfl, fun p hp => Except.noConfusion hp⟩

theorem engine_validation_witness :
    (isInvalidParamError
        (price_european_fixed_grid (fun _ => 1) (-1) 1 1 0 1 "call" none none none) = true ∧
      ∀ p, price_european_fixed_grid (fun _ => 1) (-1) 1 1 0 1 "call" none none none
        ≠ Except.ok p) ∧
    (isInvalidGridError
        (price_european_fixed_grid (fun _ => 1) 100 100 1 0 1 "call" (some 2) none none) = true ∧
      ∀ p, price_european_fixed_grid (fun _ => 1) 100 100 1 0 1 "call" (some 2) none none
        ≠ Except.ok p) :=
  ⟨(engine_validation (fun _ => 1) (-1) 1 1 0 1 "call" none none none).1
      (Or.inl (by norm_num)),
   (engine_validation (fun _ => 1) 100 100 1 0 1 "call" (some 2) none none).2
      ⟨by norm_num, by norm_num, by norm_num, by norm_num, Or.inl rfl,
        Or.inl (by decide)⟩⟩

end OptionPDE
